import Mathlib

/-!
# Verification of the authentication core (password hashing + session lifecycle)

Shallow embedding of `src/lib/password.ts` (PBKDF2 variant) and
`src/lib/session.ts` of the FullStackSample repository.

Modelling conventions:
* JS strings are `List Char` where their character structure matters
  (the stored hash `salt.hash` encoding); passwords stay opaque `String`s.
* Byte arrays (`Uint8Array`) are `List Nat` with values `< 256`.
* `btoa` / `atob` are the platform's base64 encode and forgiving-base64
  decode; they are modelled here byte-for-byte (WHATWG forgiving-base64).
* `crypto.subtle.deriveBits` (PBKDF2-HMAC-SHA256, 100000 iterations,
  256 bits) is an external crypto primitive, not repository code: it is
  modelled as an abstract deterministic function `deriveBits` mapping the
  password and the salt bytes to the derived key bytes, universally
  quantified in the theorems; its fixed 32-byte output length appears as a
  hypothesis where needed.
* `crypto.getRandomValues` salts and session ids are universally
  quantified inputs (fresh randomness appears as hypotheses such as
  distinctness or absence from the store).
* The D1 database is modelled as an explicit store value threaded through
  the session operations; each SQL statement of `session.ts` is embedded
  as a pure function on that store.
* `Date.now()` is an injected `now : Int` (milliseconds), following the
  spec's injected-clock design note; the code reads the clock up to three
  times per validation, the model assumes the clock does not tick in
  between.
-/

namespace Auth

/-! ## Base64 (model of the platform's `btoa` / `atob`) -/

/-- The 64-character base64 alphabet, in index order. -/
def b64Alphabet : List Char :=
  "ABCDEFGHIJKLMNOPQRSTUVWXYZabcdefghijklmnopqrstuvwxyz0123456789+/".toList

/-- Character for a 6-bit value (out-of-range indices fall back to the default,
they never arise for byte inputs `< 256`). -/
def b64Char (n : Nat) : Char := b64Alphabet.getD n 'A'

/-- Index of a character in the base64 alphabet; `none` when the character is
not a base64 digit. -/
def b64Index (c : Char) : Option Nat :=
  let v := c.toNat
  if 65 ≤ v ∧ v ≤ 90 then some (v - 65)
  else if 97 ≤ v ∧ v ≤ 122 then some (v - 97 + 26)
  else if 48 ≤ v ∧ v ≤ 57 then some (v - 48 + 52)
  else if v = 43 then some 62
  else if v = 47 then some 63
  else none

/-- `btoa`: base64-encode a byte list, three bytes to four characters, with
`=` padding for a trailing one- or two-byte group. -/
def btoa : List Nat → List Char
  | [] => []
  | [b0] => [b64Char (b0 / 4), b64Char (b0 % 4 * 16), '=', '=']
  | [b0, b1] => [b64Char (b0 / 4), b64Char (b0 % 4 * 16 + b1 / 16), b64Char (b1 % 16 * 4), '=']
  | b0 :: b1 :: b2 :: rest =>
      b64Char (b0 / 4) :: b64Char (b0 % 4 * 16 + b1 / 16) ::
        b64Char (b1 % 16 * 4 + b2 / 64) :: b64Char (b2 % 64) :: btoa rest

/-- The unpadded part of `btoa`: same characters, no trailing `=`. -/
def b64core : List Nat → List Char
  | [] => []
  | [b0] => [b64Char (b0 / 4), b64Char (b0 % 4 * 16)]
  | [b0, b1] => [b64Char (b0 / 4), b64Char (b0 % 4 * 16 + b1 / 16), b64Char (b1 % 16 * 4)]
  | b0 :: b1 :: b2 :: rest =>
      b64Char (b0 / 4) :: b64Char (b0 % 4 * 16 + b1 / 16) ::
        b64Char (b1 % 16 * 4 + b2 / 64) :: b64Char (b2 % 64) :: b64core rest

/-- ASCII whitespace stripped by forgiving-base64 decode. -/
def isB64Whitespace (c : Char) : Bool :=
  c = ' ' ∨ c = Char.ofNat 9 ∨ c = Char.ofNat 10 ∨ c = Char.ofNat 12 ∨ c = Char.ofNat 13

/-- Drop up to two leading `=` from a reversed character list. -/
def dropPad : List Char → List Char
  | '=' :: '=' :: rest => rest
  | '=' :: rest => rest
  | rest => rest

/-- Forgiving-base64 step 2: when the length is a multiple of four, drop up to
two trailing `=` characters. -/
def stripPadding (l : List Char) : List Char :=
  if l.length % 4 = 0 then (dropPad l.reverse).reverse else l

/-- Map every character to its alphabet index, failing on the first
non-alphabet character. -/
def b64Indices : List Char → Option (List Nat)
  | [] => some []
  | c :: rest =>
      match b64Index c with
      | none => none
      | some i =>
          match b64Indices rest with
          | none => none
          | some is => some (i :: is)

/-- Reassemble bytes from 6-bit groups: four groups give three bytes; a final
group of two or three gives one or two bytes, excess bits discarded; a final
group of one is an error. -/
def decodeQuads : List Nat → Option (List Nat)
  | [] => some []
  | [_] => none
  | [a, b] => some [a * 4 + b / 16]
  | [a, b, c] => some [a * 4 + b / 16, b % 16 * 16 + c / 4]
  | a :: b :: c :: d :: rest =>
      match decodeQuads rest with
      | none => none
      | some tail => some ((a * 4 + b / 16) :: (b % 16 * 16 + c / 4) :: (c % 4 * 64 + d) :: tail)

/-- `atob`: WHATWG forgiving-base64 decode — strip ASCII whitespace, strip up
to two trailing `=` when the length is a multiple of four, reject a remaining
length of `4k+1` or any non-alphabet character, then reassemble the bytes. -/
def atob (s : List Char) : Option (List Nat) :=
  let data := stripPadding (s.filter (fun c => !isB64Whitespace c))
  if data.length % 4 = 1 then none
  else
    match b64Indices data with
    | none => none
    | some idxs => decodeQuads idxs

/-! ## Credential hasher (`src/lib/password.ts`, PBKDF2 variant)

`deriveBits password salt` stands for
`crypto.subtle.deriveBits({name: PBKDF2, salt, iterations: 100000,
hash: SHA-256}, importKey(utf8(password)), 256)`: an external deterministic
primitive producing the 32-byte derived key. -/

/-- `hashPassword` (lines 62–98): generate a 16-byte random salt (here the
`salt` argument), derive the key, and return `` `${saltBase64}.${hashBase64}` ``. -/
def hashPassword (deriveBits : String → List Nat → List Nat)
    (password : String) (salt : List Nat) : List Char :=
  btoa salt ++ '.' :: btoa (deriveBits password salt)

/-- The body of `verifyPassword`'s `try` block (lines 106–151): split the
stored string on `.`, take the first two components (JS destructuring), treat
a missing or empty component as `false`, `atob`-decode the salt (a decode
error throws, modelled as `Except.error`), re-derive the key and compare the
base64 strings. -/
def verifyPasswordBody (deriveBits : String → List Nat → List Nat)
    (storedHash : List Char) (password : String) : Except Unit Bool :=
  let parts := storedHash.splitOn '.'
  let saltBase64 := (parts[0]?).getD []
  let hashBase64 := (parts[1]?).getD []
  if saltBase64.isEmpty || hashBase64.isEmpty then Except.ok false
  else
    match atob saltBase64 with
    | none => Except.error ()
    | some salt =>
        let computedHash := btoa (deriveBits password salt)
        Except.ok (hashBase64 == computedHash)

/-- `verifyPassword` (lines 106–152): the surrounding `try`/`catch` turns any
thrown error into `false`. -/
def verifyPassword (deriveBits : String → List Nat → List Nat)
    (storedHash : List Char) (password : String) : Bool :=
  match verifyPasswordBody deriveBits storedHash password with
  | Except.ok b => b
  | Except.error _ => false

/-! ## Session manager (`src/lib/session.ts`) -/

/-- `SESSION_DURATION = 1000 * 60 * 60 * 24 * 30` milliseconds (30 days). -/
def SESSION_DURATION : Int := 1000 * 60 * 60 * 24 * 30

/-- A row of the `sessions` table; also the shape of the `Session` interface
returned to callers (`expiresAt` in epoch milliseconds, as stored by
`expiresAt.getTime()`). -/
structure SessionRow where
  id : String
  userId : String
  expiresAt : Int
  deriving DecidableEq, Repr

/-- The `User` interface (`id`, `email`); the further columns of the `users`
table (`password_hash`, `created_at`) are never read by the session code. -/
structure UserRow where
  id : String
  email : String
  deriving DecidableEq, Repr

/-- The D1 database state consumed by the session manager. -/
structure Store where
  sessions : List SessionRow
  users : List UserRow
  deriving DecidableEq, Repr

/-- `INSERT INTO sessions (id, user_id, expires_at) VALUES (?, ?, ?)`. -/
def insertSession (db : Store) (row : SessionRow) : Store :=
  { db with sessions := db.sessions ++ [row] }

/-- `DELETE FROM sessions WHERE id = ?`. -/
def deleteSession (db : Store) (sessionId : String) : Store :=
  { db with sessions := db.sessions.filter (fun s => s.id != sessionId) }

/-- `UPDATE sessions SET expires_at = ? WHERE id = ?`. -/
def updateSessionExpiry (db : Store) (sessionId : String) (newExpiresAt : Int) : Store :=
  { db with sessions :=
      db.sessions.map (fun s => if s.id == sessionId then { s with expiresAt := newExpiresAt } else s) }

/-- The `SELECT ... FROM sessions INNER JOIN users ON sessions.user_id =
users.id WHERE sessions.id = ?` lookup with `.first()`: the session row, if
any, joined with its owning user's email. -/
def findSessionWithUser (db : Store) (sessionId : String) :
    Option (SessionRow × String) :=
  match db.sessions.find? (fun s => s.id == sessionId) with
  | none => none
  | some s =>
      match db.users.find? (fun u => u.id == s.userId) with
      | none => none
      | some u => some (s, u.email)

/-- `createSession` (lines 44–58): the freshly generated random id is the
`sessionId` argument; `expiresAt = now + SESSION_DURATION`; the row is
inserted and the full session returned. -/
def createSession (db : Store) (userId : String) (sessionId : String) (now : Int) :
    Store × SessionRow :=
  let expiresAt := now + SESSION_DURATION
  (insertSession db { id := sessionId, userId := userId, expiresAt := expiresAt },
   { id := sessionId, userId := userId, expiresAt := expiresAt })

/-- `validateSession` (lines 63–117): look the session up joined with its
user; absent → `null`; expired (`now ≥ expires_at`) → delete the row and
`null`; near expiry (`now ≥ expires_at − SESSION_DURATION / 2`) → persist
`expires_at = now + SESSION_DURATION` and return the extended session;
otherwise return session and user unmodified. Returns the updated store
paired with the result. -/
def validateSession (db : Store) (sessionId : String) (now : Int) :
    Store × Option (SessionRow × UserRow) :=
  match findSessionWithUser db sessionId with
  | none => (db, none)
  | some (s, email) =>
      if now ≥ s.expiresAt then
        (deleteSession db sessionId, none)
      else if now ≥ s.expiresAt - SESSION_DURATION / 2 then
        let newExpiresAt := now + SESSION_DURATION
        (updateSessionExpiry db sessionId newExpiresAt,
         some ({ id := s.id, userId := s.userId, expiresAt := newExpiresAt },
               { id := s.userId, email := email }))
      else
        (db, some ({ id := s.id, userId := s.userId, expiresAt := s.expiresAt },
                   { id := s.userId, email := email }))

/-- `invalidateSession` (lines 122–124): unconditionally
`DELETE FROM sessions WHERE id = ?`. -/
def invalidateSession (db : Store) (sessionId : String) : Store :=
  deleteSession db sessionId

end Auth

namespace Auth

/-! ## Base64 facts -/

theorem b64Alphabet_length : b64Alphabet.length = 64 := by decide

theorem eq_not_mem_alphabet : '=' ∉ b64Alphabet := by decide

theorem dot_not_mem_alphabet : '.' ∉ b64Alphabet := by decide

theorem b64Char_mem (n : Nat) : b64Char n ∈ b64Alphabet := by
  unfold b64Char
  rcases Nat.lt_or_ge n 64 with h | h
  · rw [List.getD_eq_getElem _ _ (by rw [b64Alphabet_length]; exact h)]
    exact List.getElem_mem _
  · rw [List.getD_eq_default _ _ (by rw [b64Alphabet_length]; exact h)]
    decide

theorem b64Char_ne_eq (n : Nat) : b64Char n ≠ '=' :=
  fun h => eq_not_mem_alphabet (h ▸ b64Char_mem n)

theorem b64Char_ne_dot (n : Nat) : b64Char n ≠ '.' :=
  fun h => dot_not_mem_alphabet (h ▸ b64Char_mem n)

theorem alphabet_not_whitespace : ∀ c ∈ b64Alphabet, isB64Whitespace c = false := by decide

theorem b64Char_not_whitespace (n : Nat) : isB64Whitespace (b64Char n) = false :=
  alphabet_not_whitespace _ (b64Char_mem n)

theorem b64Index_b64Char (n : Nat) (h : n < 64) : b64Index (b64Char n) = some n := by
  revert h
  revert n
  decide

theorem b64Index_b64Char_isSome (n : Nat) : (b64Index (b64Char n)).isSome := by
  rcases Nat.lt_or_ge n 64 with h | h
  · rw [b64Index_b64Char n h]; rfl
  · unfold b64Char
    rw [List.getD_eq_default _ _ (by rw [b64Alphabet_length]; exact h)]
    decide

/-- Every character of a `btoa` output is an alphabet character or `=`. -/
theorem btoa_chars (l : List Nat) : ∀ c ∈ btoa l, c ∈ b64Alphabet ∨ c = '=' := by
  induction l using btoa.induct <;>
    simp only [btoa, List.forall_mem_cons] <;>
    (repeat' apply And.intro) <;>
    first
      | exact Or.inl (b64Char_mem _)
      | exact Or.inr rfl
      | assumption
      | simp

/-- Every character of the unpadded core is an alphabet character. -/
theorem b64core_chars (l : List Nat) : ∀ c ∈ b64core l, c ∈ b64Alphabet := by
  induction l using b64core.induct <;>
    simp only [b64core, List.forall_mem_cons] <;>
    (repeat' apply And.intro) <;>
    first
      | exact b64Char_mem _
      | assumption
      | simp

/-- Padding suffix of `btoa` relative to the core. -/
def b64pad : List Nat → List Char
  | [] => []
  | [_] => ['=', '=']
  | [_, _] => ['=']
  | _ :: _ :: _ :: rest => b64pad rest

theorem btoa_eq_core_pad (l : List Nat) : btoa l = b64core l ++ b64pad l := by
  induction l using btoa.induct <;> simp_all [btoa, b64core, b64pad]

theorem b64pad_cases (l : List Nat) :
    b64pad l = [] ∨ b64pad l = ['='] ∨ b64pad l = ['=', '='] := by
  induction l using b64pad.induct <;> simp_all [b64pad]

theorem b64core_ne_nil_of_pad_single (l : List Nat) (h : b64pad l = ['=']) :
    b64core l ≠ [] := by
  induction l using b64pad.induct <;> simp_all [b64pad, b64core]

theorem btoa_length_mod (l : List Nat) : (btoa l).length % 4 = 0 := by
  induction l using btoa.induct <;> simp_all [btoa] <;> omega

theorem b64core_length_mod (l : List Nat) : (b64core l).length % 4 ≠ 1 := by
  induction l using b64core.induct <;> simp_all [b64core] <;> omega

end Auth

namespace Auth

/-! ## Base64 roundtrip -/

theorem dropPad_nil : dropPad [] = [] := rfl

theorem dropPad_cons_ne (c : Char) (cs : List Char) (h : c ≠ '=') :
    dropPad (c :: cs) = c :: cs := by
  unfold dropPad
  split
  · rename_i heq
    injection heq with h1 _
    exact absurd h1 h
  · rename_i heq
    injection heq with h1 _
    exact absurd h1 h
  · rfl

theorem dropPad_one_eq : dropPad ['='] = [] := rfl

theorem dropPad_eq_cons_ne (c : Char) (cs : List Char) (h : c ≠ '=') :
    dropPad ('=' :: c :: cs) = c :: cs := by
  unfold dropPad
  split
  · rename_i heq
    injection heq with _ h2
    injection h2 with h1 _
    exact absurd h1 h
  · rename_i heq
    injection heq with _ h2
    exact h2 ▸ rfl
  · rename_i hne
    exact absurd rfl (hne (c :: cs))

theorem dropPad_eq_eq (cs : List Char) : dropPad ('=' :: '=' :: cs) = cs := rfl

theorem b64core_not_eq_char (l : List Nat) : ∀ c ∈ b64core l, c ≠ '=' :=
  fun c hc h => eq_not_mem_alphabet (h ▸ b64core_chars l c hc)

theorem stripPadding_btoa (l : List Nat) : stripPadding (btoa l) = b64core l := by
  unfold stripPadding
  rw [if_pos (btoa_length_mod l), btoa_eq_core_pad, List.reverse_append]
  rcases b64pad_cases l with hp | hp | hp <;> rw [hp]
  · cases hrev : (b64core l).reverse with
    | nil =>
        simp only [List.reverse_nil, List.nil_append, dropPad_nil]
        simpa using (congrArg List.reverse hrev).symm
    | cons c cs =>
        have hc : c ≠ '=' :=
          b64core_not_eq_char l c (List.mem_reverse.mp (hrev ▸ List.mem_cons_self c cs))
        simp only [List.reverse_nil, List.nil_append, dropPad_cons_ne c cs hc]
        simpa using (congrArg List.reverse hrev).symm
  · cases hrev : (b64core l).reverse with
    | nil =>
        have : b64core l = [] := by simpa using congrArg List.reverse hrev
        exact absurd this (b64core_ne_nil_of_pad_single l hp)
    | cons c cs =>
        have hc : c ≠ '=' :=
          b64core_not_eq_char l c (List.mem_reverse.mp (hrev ▸ List.mem_cons_self c cs))
        simp only [List.reverse_cons, List.reverse_nil, List.nil_append, List.singleton_append,
          dropPad_eq_cons_ne c cs hc]
        simpa using (congrArg List.reverse hrev).symm
  · simp only [List.reverse_cons, List.reverse_nil, List.nil_append, List.append_assoc,
      List.singleton_append, List.cons_append]
    rw [dropPad_eq_eq, List.reverse_reverse]

theorem filter_not_whitespace_btoa (l : List Nat) :
    (btoa l).filter (fun c => !isB64Whitespace c) = btoa l := by
  apply List.filter_eq_self.mpr
  intro c hc
  rcases btoa_chars l c hc with h | h
  · rw [alphabet_not_whitespace c h]; rfl
  · subst h; decide

/-- The 6-bit groups of the unpadded core. -/
def coreSix : List Nat → List Nat
  | [] => []
  | [b0] => [b0 / 4, b0 % 4 * 16]
  | [b0, b1] => [b0 / 4, b0 % 4 * 16 + b1 / 16, b1 % 16 * 4]
  | b0 :: b1 :: b2 :: rest =>
      b0 / 4 :: (b0 % 4 * 16 + b1 / 16) :: (b1 % 16 * 4 + b2 / 64) :: b2 % 64 :: coreSix rest

theorem b64Indices_b64core (l : List Nat) (h : ∀ b ∈ l, b < 256) :
    b64Indices (b64core l) = some (coreSix l) := by
  induction l using b64core.induct with
  | case1 => rfl
  | case2 b0 =>
      have h0 : b0 < 256 := h b0 (by simp)
      have e1 := b64Index_b64Char (b0 / 4) (by omega)
      have e2 := b64Index_b64Char (b0 % 4 * 16) (by omega)
      simp [b64core, b64Indices, coreSix, e1, e2]
  | case3 b0 b1 =>
      have h0 : b0 < 256 := h b0 (by simp)
      have h1 : b1 < 256 := h b1 (by simp)
      have e1 := b64Index_b64Char (b0 / 4) (by omega)
      have e2 := b64Index_b64Char (b0 % 4 * 16 + b1 / 16) (by omega)
      have e3 := b64Index_b64Char (b1 % 16 * 4) (by omega)
      simp [b64core, b64Indices, coreSix, e1, e2, e3]
  | case4 b0 b1 b2 rest ih =>
      have h0 : b0 < 256 := h b0 (by simp)
      have h1 : b1 < 256 := h b1 (by simp)
      have h2 : b2 < 256 := h b2 (by simp)
      have e1 := b64Index_b64Char (b0 / 4) (by omega)
      have e2 := b64Index_b64Char (b0 % 4 * 16 + b1 / 16) (by omega)
      have e3 := b64Index_b64Char (b1 % 16 * 4 + b2 / 64) (by omega)
      have e4 := b64Index_b64Char (b2 % 64) (by omega)
      have ih2 := ih (fun b hb => h b (by simp [hb]))
      simp [b64core, b64Indices, coreSix, e1, e2, e3, e4, ih2]

theorem decodeQuads_coreSix (l : List Nat) (h : ∀ b ∈ l, b < 256) :
    decodeQuads (coreSix l) = some l := by
  induction l using coreSix.induct with
  | case1 => rfl
  | case2 b0 =>
      have h0 : b0 < 256 := h b0 (by simp)
      simp [coreSix, decodeQuads]
      omega
  | case3 b0 b1 =>
      have h0 : b0 < 256 := h b0 (by simp)
      have h1 : b1 < 256 := h b1 (by simp)
      simp [coreSix, decodeQuads]
      omega
  | case4 b0 b1 b2 rest ih =>
      have h0 : b0 < 256 := h b0 (by simp)
      have h1 : b1 < 256 := h b1 (by simp)
      have h2 : b2 < 256 := h b2 (by simp)
      have ih2 := ih (fun b hb => h b (by simp [hb]))
      simp [coreSix, decodeQuads, ih2]
      omega

/-- `atob` is a left inverse of `btoa` on byte lists. -/
theorem atob_btoa (l : List Nat) (h : ∀ b ∈ l, b < 256) : atob (btoa l) = some l := by
  unfold atob
  simp only [filter_not_whitespace_btoa, stripPadding_btoa]
  rw [if_neg (b64core_length_mod l), b64Indices_b64core l h]
  exact decodeQuads_coreSix l h

theorem b64Indices_length (s : List Char) (is : List Nat) (h : b64Indices s = some is) :
    is.length = s.length := by
  induction s generalizing is with
  | nil => simp [b64Indices] at h; simp [← h]
  | cons c cs ih =>
      unfold b64Indices at h
      cases hc : b64Index c with
      | none => rw [hc] at h; exact absurd h (by simp)
      | some i =>
          rw [hc] at h
          cases hcs : b64Indices cs with
          | none => rw [hcs] at h; exact absurd h (by simp)
          | some js =>
              rw [hcs] at h
              injection h with h
              simp [← h, ih js hcs]

theorem alphabet_b64Index_isSome : ∀ c ∈ b64Alphabet, (b64Index c).isSome := by decide

theorem b64Indices_isSome (s : List Char) (h : ∀ c ∈ s, c ∈ b64Alphabet) :
    (b64Indices s).isSome := by
  induction s with
  | nil => rfl
  | cons c cs ih =>
      obtain ⟨i, hi⟩ := Option.isSome_iff_exists.mp (alphabet_b64Index_isSome c (h c (by simp)))
      obtain ⟨js, hjs⟩ :=
        Option.isSome_iff_exists.mp (ih (fun x hx => h x (by simp [hx])))
      simp [b64Indices, hi, hjs]

theorem decodeQuads_isSome (l : List Nat) (h : l.length % 4 ≠ 1) :
    (decodeQuads l).isSome := by
  induction l using decodeQuads.induct with
  | case1 => rfl
  | case2 a => simp at h
  | case3 a b => rfl
  | case4 a b c => rfl
  | case5 a b c d rest hnone ih =>
      have hr : rest.length % 4 ≠ 1 := by simp at h; omega
      exact absurd (ih hr) (by simp [hnone])
  | case6 a b c d rest tail hsome ih =>
      simp [decodeQuads, hsome]

/-- `atob` always succeeds on a `btoa` output, whatever the input bytes. -/
theorem atob_btoa_isSome (l : List Nat) : (atob (btoa l)).isSome := by
  unfold atob
  simp only [filter_not_whitespace_btoa, stripPadding_btoa]
  rw [if_neg (b64core_length_mod l)]
  obtain ⟨is, his⟩ :=
    Option.isSome_iff_exists.mp (b64Indices_isSome (b64core l) (b64core_chars l))
  rw [his]
  apply decodeQuads_isSome
  rw [b64Indices_length (b64core l) is his]
  exact b64core_length_mod l

theorem btoa_ne_nil (l : List Nat) (h : l ≠ []) : btoa l ≠ [] := by
  match l with
  | [] => exact absurd rfl h
  | [b0] => simp [btoa]
  | [b0, b1] => simp [btoa]
  | b0 :: b1 :: b2 :: rest => simp [btoa]

theorem dot_not_mem_btoa (l : List Nat) : '.' ∉ btoa l := by
  intro hc
  rcases btoa_chars l '.' hc with h | h
  · exact dot_not_mem_alphabet h
  · exact absurd h (by decide)

/-- `btoa` is injective on byte lists. -/
theorem btoa_injective (l1 l2 : List Nat) (h1 : ∀ b ∈ l1, b < 256)
    (h2 : ∀ b ∈ l2, b < 256) (h : btoa l1 = btoa l2) : l1 = l2 := by
  have := (atob_btoa l1 h1).symm.trans (h ▸ atob_btoa l2 h2)
  injection this

end Auth

namespace Auth

/-! ## Splitting the stored `salt.hash` string -/

theorem splitOn_dot_first (a rest : List Char) (h : '.' ∉ a) :
    (a ++ '.' :: rest).splitOn '.' = a :: rest.splitOn '.' := by
  unfold List.splitOn
  refine List.splitOnP_first _ a ?_ '.' (by simp) rest
  intro x hx
  simp only [beq_iff_eq]
  exact fun he => h (he ▸ hx)

theorem splitOn_no_dot (a : List Char) (h : '.' ∉ a) : a.splitOn '.' = [a] := by
  unfold List.splitOn
  refine List.splitOnP_eq_single _ a ?_
  intro x hx
  simp only [beq_iff_eq]
  exact fun he => h (he ▸ hx)

/-! ## Claim theorems: credential hasher -/

/-- C1: for every password string `p` (the empty password included), every
16-byte salt generated during hashing, and every key-derivation primitive of
the fixed 32-byte output length, verifying `p` against the hash produced for
`p` succeeds: `verifyPassword (hashPassword p) p = true`. -/
theorem verify_of_hashPassword (deriveBits : String → List Nat → List Nat)
    (hlen : ∀ p s, (deriveBits p s).length = 32)
    (password : String) (salt : List Nat)
    (hsaltLen : salt.length = 16) (hsalt : ∀ b ∈ salt, b < 256) :
    verifyPassword deriveBits (hashPassword deriveBits password salt) password = true := by
  have hsne : salt ≠ [] := by
    intro hn
    rw [hn] at hsaltLen
    simp at hsaltLen
  have hdne : deriveBits password salt ≠ [] := by
    intro hn
    have h32 := hlen password salt
    rw [hn] at h32
    simp at h32
  unfold hashPassword verifyPassword verifyPasswordBody
  rw [splitOn_dot_first _ _ (dot_not_mem_btoa salt),
      splitOn_no_dot _ (dot_not_mem_btoa (deriveBits password salt))]
  simp only [List.getElem?_cons_zero, List.getElem?_cons_succ, Option.getD_some]
  rw [if_neg (by simp [btoa_ne_nil _ hsne, btoa_ne_nil _ hdne])]
  rw [atob_btoa salt hsalt]
  simp

theorem verify_of_hashPassword_witness :
    verifyPassword (fun _ _ => List.replicate 32 0)
      (hashPassword (fun _ _ => List.replicate 32 0) "" (List.range 16)) "" = true :=
  verify_of_hashPassword (fun _ _ => List.replicate 32 0) (fun _ _ => by simp)
    "" (List.range 16) (by simp) (by decide)

/-- C6: two calls of `hashPassword` on the same password with two distinct
freshly generated 16-byte salts yield two different opaque strings. -/
theorem hashPassword_salt_freshness (deriveBits : String → List Nat → List Nat)
    (password : String) (s1 s2 : List Nat)
    (h1len : s1.length = 16) (h2len : s2.length = 16)
    (h1 : ∀ b ∈ s1, b < 256) (h2 : ∀ b ∈ s2, b < 256) (hne : s1 ≠ s2) :
    hashPassword deriveBits password s1 ≠ hashPassword deriveBits password s2 := by
  intro h
  apply hne
  apply btoa_injective s1 s2 h1 h2
  have hsplit := congrArg (List.splitOn '.') h
  rw [hashPassword, hashPassword, splitOn_dot_first _ _ (dot_not_mem_btoa s1),
    splitOn_dot_first _ _ (dot_not_mem_btoa s2)] at hsplit
  injection hsplit with hhead htail

theorem hashPassword_salt_freshness_witness :
    hashPassword (fun _ _ => List.replicate 32 0) "pw" (List.replicate 16 0) ≠
      hashPassword (fun _ _ => List.replicate 32 0) "pw" (List.replicate 16 1) :=
  hashPassword_salt_freshness (fun _ _ => List.replicate 32 0) "pw"
    (List.replicate 16 0) (List.replicate 16 1)
    (by simp) (by simp) (by decide) (by decide) (by decide)

/-- A stored-hash string that is malformed in one of the ways C4 names:
missing `.` separator, empty salt or hash component, or a component that
fails base64 decoding. -/
def malformedStoredHash (stored : List Char) : Prop :=
  '.' ∉ stored ∨
  ((stored.splitOn '.')[0]?).getD [] = [] ∨
  ((stored.splitOn '.')[1]?).getD [] = [] ∨
  atob (((stored.splitOn '.')[0]?).getD []) = none ∨
  atob (((stored.splitOn '.')[1]?).getD []) = none

/-- C4: for every malformed stored-hash string and every candidate password,
`verifyPassword` returns `false`; the `try`/`catch` in the embedding makes it
total, so no exception reaches the caller. -/
theorem verify_malformed_eq_false (deriveBits : String → List Nat → List Nat)
    (stored : List Char) (password : String) (h : malformedStoredHash stored) :
    verifyPassword deriveBits stored password = false := by
  unfold verifyPassword verifyPasswordBody
  rcases h with h | h | h | h | h
  · rw [splitOn_no_dot _ h]
    simp
  · rw [if_pos (by rw [h]; rfl)]
  · rw [if_pos (by rw [h]; exact Bool.or_true _)]
  · by_cases h0 : ((stored.splitOn '.')[0]?).getD [] = []
    · rw [if_pos (by rw [h0]; rfl)]
    · by_cases h1 : ((stored.splitOn '.')[1]?).getD [] = []
      · rw [if_pos (by rw [h1]; exact Bool.or_true _)]
      · rw [if_neg (by simp [List.isEmpty_iff, h0, h1]), h]
  · by_cases h0 : ((stored.splitOn '.')[0]?).getD [] = []
    · rw [if_pos (by rw [h0]; rfl)]
    · by_cases h1 : ((stored.splitOn '.')[1]?).getD [] = []
      · rw [if_pos (by rw [h1]; exact Bool.or_true _)]
      · rw [if_neg (by simp [List.isEmpty_iff, h0, h1])]
        cases hs : atob (((stored.splitOn '.')[0]?).getD []) with
        | none => rfl
        | some salt =>
            have hne : ((stored.splitOn '.')[1]?).getD [] ≠ btoa (deriveBits password salt) := by
              intro heq
              rw [heq] at h
              obtain ⟨v, hv⟩ :=
                Option.isSome_iff_exists.mp (atob_btoa_isSome (deriveBits password salt))
              rw [h] at hv
              exact Option.noConfusion hv
            show (((stored.splitOn '.')[1]?).getD [] == btoa (deriveBits password salt)) = false
            exact beq_eq_false_iff_ne.mpr hne

theorem verify_malformed_eq_false_witness :
    verifyPassword (fun _ _ => List.replicate 32 0) "notahash".toList "pw" = false :=
  verify_malformed_eq_false (fun _ _ => List.replicate 32 0) "notahash".toList "pw"
    (Or.inl (by decide))

/-- C10: `verifyPassword` splits the stored string on every `.` but uses only
the first two components: on `salt.hash.extra` it behaves exactly as on
`salt.hash`. -/
theorem verify_ignores_extra_components (deriveBits : String → List Nat → List Nat)
    (a b extra : List Char) (password : String) (ha : '.' ∉ a) (hb : '.' ∉ b) :
    verifyPassword deriveBits (a ++ '.' :: (b ++ '.' :: extra)) password =
      verifyPassword deriveBits (a ++ '.' :: b) password := by
  unfold verifyPassword verifyPasswordBody
  rw [splitOn_dot_first _ _ ha, splitOn_dot_first _ _ hb, splitOn_dot_first _ _ ha,
    splitOn_no_dot _ hb]
  simp only [List.getElem?_cons_zero, List.getElem?_cons_succ, Option.getD_some]

end Auth

namespace Auth

/-! ## Claim theorems: session manager -/

theorem updateSessionExpiry_mem (db : Store) (sid : String) (t : Int) :
    ∀ r ∈ (updateSessionExpiry db sid t).sessions, r.id = sid → r.expiresAt = t := by
  intro r hr hrid
  unfold updateSessionExpiry at hr
  simp only [List.mem_map] at hr
  obtain ⟨a, _, hmap⟩ := hr
  by_cases hid : (a.id == sid) = true
  · rw [if_pos hid] at hmap
    rw [← hmap]
  · rw [if_neg hid] at hmap
    rw [← hmap] at hrid
    exact absurd (beq_iff_eq.mpr hrid) hid

/-- C2: a stored session validated while `expires_at − now > SESSION_DURATION/2`
is returned with `expires_at` unchanged and no write happens; validated while
still valid but `expires_at − now ≤ SESSION_DURATION/2`, the stored and the
returned `expires_at` both become exactly `now + SESSION_DURATION`. -/
theorem validateSession_renewal (db : Store) (sid : String) (now : Int)
    (s : SessionRow) (email : String)
    (hfind : findSessionWithUser db sid = some (s, email))
    (hvalid : now < s.expiresAt) :
    (s.expiresAt - now > SESSION_DURATION / 2 →
      validateSession db sid now =
        (db, some ({ id := s.id, userId := s.userId, expiresAt := s.expiresAt },
                   { id := s.userId, email := email }))) ∧
    (s.expiresAt - now ≤ SESSION_DURATION / 2 →
      validateSession db sid now =
        (updateSessionExpiry db sid (now + SESSION_DURATION),
         some ({ id := s.id, userId := s.userId, expiresAt := now + SESSION_DURATION },
               { id := s.userId, email := email })) ∧
      ∀ r ∈ (validateSession db sid now).1.sessions, r.id = sid →
        r.expiresAt = now + SESSION_DURATION) := by
  constructor
  · intro hgt
    unfold validateSession
    rw [hfind]
    dsimp only
    rw [if_neg (by omega), if_neg (by omega)]
  · intro hle
    have heq : validateSession db sid now =
        (updateSessionExpiry db sid (now + SESSION_DURATION),
         some ({ id := s.id, userId := s.userId, expiresAt := now + SESSION_DURATION },
               { id := s.userId, email := email })) := by
      unfold validateSession
      rw [hfind]
      dsimp only
      rw [if_neg (by omega), if_pos (by omega)]
    refine ⟨heq, ?_⟩
    rw [heq]
    exact updateSessionExpiry_mem db sid _

theorem validateSession_renewal_witness :
    validateSession ⟨[⟨"s1", "u1", 100⟩], [⟨"u1", "e"⟩]⟩ "s1" 0 =
      (updateSessionExpiry ⟨[⟨"s1", "u1", 100⟩], [⟨"u1", "e"⟩]⟩ "s1" (0 + SESSION_DURATION),
       some ({ id := "s1", userId := "u1", expiresAt := 0 + SESSION_DURATION },
             { id := "u1", email := "e" })) :=
  ((validateSession_renewal ⟨[⟨"s1", "u1", 100⟩], [⟨"u1", "e"⟩]⟩ "s1" 0
      ⟨"s1", "u1", 100⟩ "e" rfl (by decide)).2 (by decide)).1

/-- C3: a stored session (with its owning user present, as the inner join
requires) whose `expires_at` is not in the future is deleted on validation:
the result is `none` and no row with that session id remains. -/
theorem validateSession_expired_deletes (db : Store) (sid : String) (now : Int)
    (s : SessionRow) (email : String)
    (hfind : findSessionWithUser db sid = some (s, email))
    (hexp : s.expiresAt ≤ now) :
    (validateSession db sid now).2 = none ∧
    ∀ r ∈ (validateSession db sid now).1.sessions, r.id ≠ sid := by
  have heq : validateSession db sid now = (deleteSession db sid, none) := by
    unfold validateSession
    rw [hfind]
    dsimp only
    rw [if_pos (by omega)]
  rw [heq]
  refine ⟨rfl, ?_⟩
  intro r hr
  simp only [deleteSession, List.mem_filter] at hr
  simpa using hr.2

theorem validateSession_expired_deletes_witness :
    (validateSession ⟨[⟨"s1", "u1", 100⟩], [⟨"u1", "e"⟩]⟩ "s1" 100).2 = none ∧
    ∀ r ∈ (validateSession ⟨[⟨"s1", "u1", 100⟩], [⟨"u1", "e"⟩]⟩ "s1" 100).1.sessions,
      r.id ≠ "s1" :=
  validateSession_expired_deletes ⟨[⟨"s1", "u1", 100⟩], [⟨"u1", "e"⟩]⟩ "s1" 100
    ⟨"s1", "u1", 100⟩ "e" rfl (by decide)

/-- C5: `createSession` returns a session with the given `userId` and
`expiresAt = now + SESSION_DURATION`, persists exactly that row, and an
immediate `validateSession` on the returned id (fresh, as the random
generation guarantees; the user existing in the store) resolves to the same
userId with that expiry. -/
theorem createSession_spec (db : Store) (userId sid : String) (now : Int)
    (hfresh : ∀ r ∈ db.sessions, r.id ≠ sid)
    (hu : ∃ u, db.users.find? (fun u => u.id == userId) = some u) :
    (createSession db userId sid now).2.userId = userId ∧
    (createSession db userId sid now).2.expiresAt = now + SESSION_DURATION ∧
    (createSession db userId sid now).1.sessions =
      db.sessions ++ [{ id := sid, userId := userId, expiresAt := now + SESSION_DURATION }] ∧
    ∃ em, (validateSession (createSession db userId sid now).1 sid now).2 =
      some ((createSession db userId sid now).2, { id := userId, email := em }) := by
  obtain ⟨u, hu⟩ := hu
  have huid : u.id = userId := by
    have := List.find?_some hu
    simpa using this
  refine ⟨rfl, rfl, rfl, u.email, ?_⟩
  have hnone : db.sessions.find? (fun r => r.id == sid) = none := by
    apply List.find?_eq_none.mpr
    intro r hr
    simpa using hfresh r hr
  have hfind : findSessionWithUser (createSession db userId sid now).1 sid =
      some ({ id := sid, userId := userId, expiresAt := now + SESSION_DURATION }, u.email) := by
    unfold findSessionWithUser createSession insertSession
    dsimp only
    rw [List.find?_append, hnone]
    simp only [Option.none_or]
    rw [show List.find? (fun s : SessionRow => s.id == sid)
          ([{ id := sid, userId := userId, expiresAt := now + SESSION_DURATION }] :
            List SessionRow) =
        some { id := sid, userId := userId, expiresAt := now + SESSION_DURATION } from by simp]
    dsimp only
    rw [hu]
  unfold validateSession
  rw [hfind]
  dsimp only
  rw [if_neg (by unfold SESSION_DURATION; omega), if_neg (by unfold SESSION_DURATION; omega)]
  rfl

theorem createSession_spec_witness :
    (createSession ⟨[], [⟨"u1", "e"⟩]⟩ "u1" "s1" 0).2.userId = "u1" ∧
    (createSession ⟨[], [⟨"u1", "e"⟩]⟩ "u1" "s1" 0).2.expiresAt = 0 + SESSION_DURATION ∧
    (createSession ⟨[], [⟨"u1", "e"⟩]⟩ "u1" "s1" 0).1.sessions =
      [] ++ [{ id := "s1", userId := "u1", expiresAt := 0 + SESSION_DURATION }] ∧
    ∃ em, (validateSession (createSession ⟨[], [⟨"u1", "e"⟩]⟩ "u1" "s1" 0).1 "s1" 0).2 =
      some ((createSession ⟨[], [⟨"u1", "e"⟩]⟩ "u1" "s1" 0).2, { id := "u1", email := em }) :=
  createSession_spec ⟨[], [⟨"u1", "e"⟩]⟩ "u1" "s1" 0 (by simp) ⟨⟨"u1", "e"⟩, rfl⟩

/-- C7: `invalidateSession` is total (the embedded operation returns a store
for every id); on an id with no row it is a no-op, and in general exactly the
rows with the given id are removed and every other row is kept. -/
theorem invalidateSession_spec (db : Store) (sid : String) :
    ((∀ r ∈ db.sessions, r.id ≠ sid) → invalidateSession db sid = db) ∧
    (∀ r, r ∈ (invalidateSession db sid).sessions ↔ r ∈ db.sessions ∧ r.id ≠ sid) := by
  constructor
  · intro hnone
    unfold invalidateSession deleteSession
    have hfilter : db.sessions.filter (fun s => s.id != sid) = db.sessions :=
      List.filter_eq_self.mpr (fun a ha => by simpa using hnone a ha)
    rw [hfilter]
  · intro r
    unfold invalidateSession deleteSession
    simp [List.mem_filter]

theorem invalidateSession_spec_witness :
    invalidateSession ⟨[⟨"s1", "u1", 100⟩], []⟩ "zz" = ⟨[⟨"s1", "u1", 100⟩], []⟩ :=
  (invalidateSession_spec ⟨[⟨"s1", "u1", 100⟩], []⟩ "zz").1 (by decide)

/-- C9: every non-`none` result of `validateSession` carries a session whose
`expiresAt` is strictly in the future and a user whose id equals the
session's `userId`. -/
theorem validateSession_result_invariant (db : Store) (sid : String) (now : Int)
    (sess : SessionRow) (user : UserRow)
    (h : (validateSession db sid now).2 = some (sess, user)) :
    now < sess.expiresAt ∧ user.id = sess.userId := by
  unfold validateSession at h
  cases hfind : findSessionWithUser db sid with
  | none =>
      rw [hfind] at h
      exact absurd h (by simp)
  | some p =>
      obtain ⟨s, email⟩ := p
      rw [hfind] at h
      dsimp only at h
      by_cases h1 : now ≥ s.expiresAt
      · rw [if_pos h1] at h
        exact absurd h (by simp)
      · rw [if_neg h1] at h
        by_cases h2 : now ≥ s.expiresAt - SESSION_DURATION / 2
        · rw [if_pos h2] at h
          simp only [Option.some.injEq, Prod.mk.injEq] at h
          obtain ⟨rfl, rfl⟩ := h
          exact ⟨by dsimp only; unfold SESSION_DURATION; omega, rfl⟩
        · rw [if_neg h2] at h
          simp only [Option.some.injEq, Prod.mk.injEq] at h
          obtain ⟨rfl, rfl⟩ := h
          exact ⟨by dsimp only; omega, rfl⟩

theorem validateSession_result_invariant_witness :
    (0 : Int) < 3000000000 ∧ ("u1" : String) = "u1" :=
  validateSession_result_invariant ⟨[⟨"s1", "u1", 3000000000⟩], [⟨"u1", "e"⟩]⟩ "s1" 0
    ⟨"s1", "u1", 3000000000⟩ ⟨"u1", "e"⟩ rfl

end Auth

namespace Auth

theorem verify_ignores_extra_components_witness :
    verifyPassword (fun _ _ => List.replicate 32 0)
      ("ab".toList ++ '.' :: ("cd".toList ++ '.' :: "xy".toList)) "pw" =
      verifyPassword (fun _ _ => List.replicate 32 0) ("ab".toList ++ '.' :: "cd".toList) "pw" :=
  verify_ignores_extra_components (fun _ _ => List.replicate 32 0)
    "ab".toList "cd".toList "xy".toList "pw" (by decide) (by decide)

end Auth
